import Mathlib

/-!
# hacCare — verification of the record identity & persistence model

A shallow embedding of the two hacCare front-ends:

* `src/streamlit_app.py` — the JSON-backed patient-record store
  (`record_path`, `load_patient`, `save_patient`, the Save Record
  handler, the All Records enumeration and delete button, the
  credential store `load_users` / `verify_password` with SHA-256
  password digests), and
* `src/main.py` — the spreadsheet-backed record index
  (`load_records`, `save_record_to_excel`, the `FOLDERS` table).

JSON values are embedded as the inductive `JVal`; a parsed JSON object
(a Python dict) is an association list.  The `Records/` directory is
embedded as an association list from file name to stored document:
writing a file overwrites the entry with that exact name, reading looks
the name up, `os.remove` deletes the entry and fails (`none`) when the
name is absent, and `os.listdir` returns the list of names.  JSON
serialisation followed by parsing is the identity on `JVal`, so a file
holds the document itself.  SHA-256 is implemented in full
(padding, message schedule, compression) over `Nat` with explicit
`% 2^32` reduction.
-/

namespace HacCare

/-! ## Python string primitives -/

/-- Python `str.lower()` (ASCII case mapping, as exercised by the app). -/
def pyLower (s : String) : String :=
  String.mk (s.toList.map Char.toLower)

/-- Python `str.strip()`: drop leading and trailing whitespace. -/
def pyStrip (s : String) : String :=
  String.mk (((s.toList.dropWhile Char.isWhitespace).reverse.dropWhile
    Char.isWhitespace).reverse)

/-- Python `s.split(sep)` for a one-character separator: split at every
occurrence of `c`, keeping empty pieces, never returning an empty list. -/
def splitOnChar (c : Char) : List Char → List (List Char)
  | [] => [[]]
  | x :: xs =>
    match splitOnChar c xs with
    | [] => [[]]
    | r :: rs => if x = c then [] :: r :: rs else (x :: r) :: rs

/-- Python `s.startswith(p)` on character lists. -/
def pyStartsWith (p s : List Char) : Bool :=
  p.isPrefixOf s

/-- Python `s.replace(pat, rep)` (all occurrences, left to right) on
character lists; the pattern is split as head and tail so it is
syntactically non-empty. -/
def pyReplaceChars (p : Char) (ps rep : List Char) : List Char → List Char
  | [] => []
  | c :: cs =>
    if (p :: ps).isPrefixOf (c :: cs) then
      rep ++ pyReplaceChars p ps rep (cs.drop ps.length)
    else
      c :: pyReplaceChars p ps rep cs
termination_by l => l.length
decreasing_by
  · simp [List.length_drop]; omega
  · simp

/-- Python `s.replace(pat, rep)` on strings, for a non-empty pattern
given as first character plus rest. -/
def pyReplace (p : Char) (ps : String) (rep : String) (s : String) : String :=
  String.mk (pyReplaceChars p ps.toList rep.toList s.toList)

/-- Python `int(s)`: optional surrounding whitespace, optional sign,
then at least one decimal digit; any other shape raises `ValueError`,
embedded as `none`. -/
def pyInt (s : String) : Option Int :=
  let t := (pyStrip s).toList
  let core : List Char → Option Nat := fun ds =>
    if ds = [] then none
    else if ds.all Char.isDigit then
      some (ds.foldl (fun acc c => 10 * acc + (c.toNat - 48)) 0)
    else none
  match t with
  | '-' :: rest => (core rest).map (fun n => -(n : Int))
  | '+' :: rest => (core rest).map (fun n => (n : Int))
  | _ => (core t).map (fun n => (n : Int))

/-- Python `str.zfill(w)`: left-pad with `'0'` to width `w`, keeping a
leading sign in front of the padding. -/
def zfill (w : Nat) (s : String) : String :=
  if w ≤ s.length then s
  else
    match s.toList with
    | c :: cs =>
      if c = '-' ∨ c = '+' then
        String.mk (c :: List.replicate (w - s.length) '0' ++ cs)
      else
        String.mk (List.replicate (w - s.length) '0' ++ (c :: cs))
    | [] => String.mk (List.replicate w '0')

/-! ## JSON values and dicts -/

/-- A JSON value as parsed by `json.load` (the fragment the app
stores: strings, numbers, arrays, objects). -/
inductive JVal where
  | str : String → JVal
  | num : Int → JVal
  | arr : List JVal → JVal
  | obj : List (String × JVal) → JVal

/-- A parsed JSON object / Python dict: an association list preserving
insertion order, with unique keys maintained by `dictInsert`. -/
abbrev Dict := List (String × JVal)

/-- Python `d[k] = v`: replace the value of an existing key in place,
else append the new key at the end. -/
def dictInsert (d : Dict) (k : String) (v : JVal) : Dict :=
  match d with
  | [] => [(k, v)]
  | (k', v') :: rest =>
    if k' = k then (k, v) :: rest else (k', v') :: dictInsert rest k v

/-- Python `d.get(k)` / `d[k]` lookup: first binding of the key. -/
def dictGet (d : Dict) (k : String) : Option JVal :=
  match d with
  | [] => none
  | (k', v) :: rest => if k' = k then some v else dictGet rest k

/-- Python `len(v)` on a JSON value: defined for strings, arrays and
objects; `len` of a number raises `TypeError`, embedded as `none`. -/
def pyLen (v : JVal) : Option Nat :=
  match v with
  | .str s => some s.length
  | .arr vs => some vs.length
  | .obj fs => some fs.length
  | .num _ => none

/-- Python `repr` of a string: single quotes, backslash and quote
escaped.  (Further `repr` escaping of exotic characters is not
reproduced; no stored value depends on it.) -/
def pyStrQuote (s : String) : String :=
  "\x27" ++ (s.replace "\\" "\\\\").replace "\x27" "\\\x27" ++ "\x27"

/-- Python `repr` of a JSON value, as used by `str()` on containers:
quoted strings, lists in brackets, dicts in braces. -/
def pyRepr : JVal → String
  | .str s => pyStrQuote s
  | .num n => toString n
  | .arr vs =>
    "[" ++ String.intercalate ", " (vs.attach.map (fun v => pyRepr v.1)) ++ "]"
  | .obj fs =>
    "\x7b" ++
      String.intercalate ", "
        (fs.attach.map (fun kv => pyStrQuote kv.1.1 ++ ": " ++ pyRepr kv.1.2)) ++
    "\x7d"
decreasing_by
  · have := List.sizeOf_lt_of_mem v.2; simp at this ⊢; omega
  · obtain ⟨⟨k, v⟩, hm⟩ := kv
    have := List.sizeOf_lt_of_mem hm; simp at this ⊢; omega

/-- Python `str(v)` on a JSON value: a string is returned as itself,
anything else via `repr`. -/
def pyStr (v : JVal) : String :=
  match v with
  | .str s => s
  | _ => pyRepr v

/-! ## SHA-256 (`hashlib.sha256(pw.encode()).hexdigest()`)

Machine words are `Nat` reduced by `% 2^32`. -/

/-- Reduce to a 32-bit word. -/
def w32 (n : Nat) : Nat := n % 4294967296

/-- Rotate a 32-bit word right by `b` bits. -/
def rotr (b n : Nat) : Nat :=
  w32 ((n >>> b) ||| (n <<< (32 - b)))

/-- Bitwise complement of a 32-bit word. -/
def wnot (n : Nat) : Nat := 4294967295 - w32 n

/-- SHA-256 `Ch(x,y,z)`. -/
def shaCh (x y z : Nat) : Nat := (x &&& y) ^^^ (wnot x &&& z)

/-- SHA-256 `Maj(x,y,z)`. -/
def shaMaj (x y z : Nat) : Nat := (x &&& y) ^^^ (x &&& z) ^^^ (y &&& z)

/-- SHA-256 `Σ₀`. -/
def bigSigma0 (x : Nat) : Nat := rotr 2 x ^^^ rotr 13 x ^^^ rotr 22 x

/-- SHA-256 `Σ₁`. -/
def bigSigma1 (x : Nat) : Nat := rotr 6 x ^^^ rotr 11 x ^^^ rotr 25 x

/-- SHA-256 `σ₀`. -/
def smallSigma0 (x : Nat) : Nat := rotr 7 x ^^^ rotr 18 x ^^^ (x >>> 3)

/-- SHA-256 `σ₁`. -/
def smallSigma1 (x : Nat) : Nat := rotr 17 x ^^^ rotr 19 x ^^^ (x >>> 10)

/-- The 64 SHA-256 round constants (FIPS 180-4, written in decimal). -/
def shaK : Array Nat := #[
  1116352408, 1899447441, 3049323471, 3921009573, 961987163,
  1508970993, 2453635748, 2870763221, 3624381080, 310598401,
  607225278, 1426881987, 1925078388, 2162078206, 2614888103,
  3248222580, 3835390401, 4022224774, 264347078, 604807628,
  770255983, 1249150122, 1555081692, 1996064986, 2554220882,
  2821834349, 2952996808, 3210313671, 3336571891, 3584528711,
  113926993, 338241895, 666307205, 773529912, 1294757372,
  1396182291, 1695183700, 1986661051, 2177026350, 2456956037,
  2730485921, 2820302411, 3259730800, 3345764771, 3516065817,
  3600352804, 4094571909, 275423344, 430227734, 506948616,
  659060556, 883997877, 958139571, 1322822218, 1537002063,
  1747873779, 1955562222, 2024104815, 2227730452, 2361852424,
  2428436474, 2756734187, 3204031479, 3329325298]

/-- The SHA-256 initial hash value (FIPS 180-4, written in decimal). -/
def shaH0 : List Nat := [
  1779033703, 3144134277, 1013904242,
  2773480762, 1359893119, 2600822924,
  528734635, 1541459225]

/-- Extend 16 message words to the 64-word schedule. -/
def shaSchedule (block : List Nat) : Array Nat :=
  (List.range 48).foldl
    (fun ws _ =>
      let j := ws.size
      ws.push (w32 (smallSigma1 (ws.getD (j - 2) 0) + ws.getD (j - 7) 0 +
        smallSigma0 (ws.getD (j - 15) 0) + ws.getD (j - 16) 0)))
    (Array.mk block)

/-- One SHA-256 compression round. -/
def shaRound (st : List Nat) (ki wi : Nat) : List Nat :=
  match st with
  | [a, b, c, d, e, f, g, h] =>
    let t1 := w32 (h + bigSigma1 e + shaCh e f g + ki + wi)
    let t2 := w32 (bigSigma0 a + shaMaj a b c)
    [w32 (t1 + t2), a, b, c, w32 (d + t1), e, f, g]
  | _ => st

/-- Compress one 16-word block into the running hash. -/
def shaCompress (h : List Nat) (block : List Nat) : List Nat :=
  let ws := shaSchedule block
  let st := (List.range 64).foldl
    (fun st i => shaRound st (shaK.getD i 0) (ws.getD i 0)) h
  (List.range 8).map (fun i => w32 (h.getD i 0 + st.getD i 0))

/-- UTF-8 encoding of one character (Python `str.encode()`). -/
def utf8Bytes (c : Char) : List Nat :=
  let n := c.toNat
  if n < 0x80 then [n]
  else if n < 0x800 then
    [0xC0 ||| (n >>> 6), 0x80 ||| (n &&& 0x3F)]
  else if n < 0x10000 then
    [0xE0 ||| (n >>> 12), 0x80 ||| ((n >>> 6) &&& 0x3F), 0x80 ||| (n &&& 0x3F)]
  else
    [0xF0 ||| (n >>> 18), 0x80 ||| ((n >>> 12) &&& 0x3F),
     0x80 ||| ((n >>> 6) &&& 0x3F), 0x80 ||| (n &&& 0x3F)]

/-- Big-endian bytes of a 64-bit quantity. -/
def be64 (n : Nat) : List Nat :=
  (List.range 8).map (fun i => (n >>> (8 * (7 - i))) % 256)

/-- SHA-256 message padding: `0x80`, zeros to 56 mod 64, then the
bit length as 8 big-endian bytes. -/
def shaPad (msg : List Nat) : List Nat :=
  msg ++ 0x80 :: List.replicate ((55 + 64 - msg.length % 64) % 64) 0 ++
    be64 (8 * msg.length)

/-- Group padded bytes into 16-word blocks (4 bytes per word,
big-endian). -/
def shaBlocks (padded : List Nat) : List (List Nat) :=
  (List.range (padded.length / 64)).map (fun b =>
    (List.range 16).map (fun i =>
      let at4 := fun j => padded.getD (64 * b + 4 * i + j) 0
      (at4 0) <<< 24 ||| (at4 1) <<< 16 ||| (at4 2) <<< 8 ||| at4 3))

/-- SHA-256 of a byte string: the eight 32-bit words of the digest. -/
def sha256Words (msg : List Nat) : List Nat :=
  (shaBlocks (shaPad msg)).foldl shaCompress shaH0

/-- The lowercase hexadecimal alphabet. -/
def hexChar (n : Nat) : Char :=
  "0123456789abcdef".toList.getD n '0'

/-- Eight hex characters of one 32-bit word, most significant first. -/
def wordHexChars (w : Nat) : List Char :=
  (List.range 8).map (fun i => hexChar ((w >>> (4 * (7 - i))) % 16))

/-- `hashlib.sha256(pw.encode()).hexdigest()` — the 64-character hex
digest of the UTF-8 bytes of `pw`. -/
def hash_password (pw : String) : String :=
  String.mk ((sha256Words ((pw.toList.map utf8Bytes).flatten)).map
    wordHexChars).flatten

/-! ## Authentication gate (`load_users`, `verify_password`) -/

/-- The credential file seeded on first run:
`{"admin": {"password": hash_password("haccare")}}`. -/
def defaultSeed : List (String × JVal) :=
  [("admin", JVal.obj [("password", JVal.str (hash_password "haccare"))])]

/-- One iteration of the normalisation loop in `load_users`: an entry
that is not a dict becomes `{"password": str(info)}`; then
`pw = data[u]["password"]` (KeyError when absent → `none`),
`len(pw)` (TypeError on a number → `none`), and a password whose
length is not 64 is replaced by `hash_password(pw)` (which raises on a
non-string → `none`). -/
def normalizePw (d : Dict) : Option JVal :=
  match dictGet d "password" with
  | none => none
  | some pw =>
    match pyLen pw with
    | none => none
    | some n =>
      if n = 64 then some (JVal.obj d)
      else
        match pw with
        | .str s =>
          some (JVal.obj (dictInsert d "password" (JVal.str (hash_password s))))
        | _ => none

/-- An entry that is not a dict is first replaced by
`{"password": str(info)}`, then the password check runs. -/
def normalizeEntry (info : JVal) : Option JVal :=
  normalizePw
    (match info with
    | .obj fields => fields
    | other => [("password", JVal.str (pyStr other))])

/-- The `for u, info in list(data.items())` normalisation loop;
`none` embeds an exception escaping `load_users`. -/
def normalizeUsers : List (String × JVal) → Option (List (String × JVal))
  | [] => some []
  | (u, info) :: rest =>
    match normalizeEntry info, normalizeUsers rest with
    | some v, some r => some ((u, v) :: r)
    | _, _ => none

/-- The final comprehension `{u.lower(): info for u, info in
data.items()}`: keys lowered, a repeated lowered key keeps its first
position with the later value. -/
def lowerKeys (data : List (String × JVal)) : Dict :=
  data.foldl (fun acc kv => dictInsert acc (pyLower kv.1) kv.2) []

/-- `load_users()`: the argument is the parsed content of `users.json`
(`none` when the file does not exist, in which case the default seed is
written and then read back); the result is the returned mapping, or
`none` when normalisation raises.  Writing the normalised file back is
a side effect with no influence on the returned value. -/
def load_users (file : Option (List (String × JVal))) : Option Dict :=
  (normalizeUsers (file.getD defaultSeed)).map lowerKeys

/-- `verify_password(user, pw)` against a loaded `users` mapping:
`rec = users.get(user.strip().lower())`, then
`isinstance(rec, dict) and rec.get("password") == hash_password(pw)`.
A missing key or a non-string stored password compares unequal to the
digest string (Python `==` never raises there). -/
def verify_password (users : Dict) (user pw : String) : Bool :=
  match dictGet users (pyLower (pyStrip user)) with
  | some (.obj fields) =>
    match dictGet fields "password" with
    | some (.str s) => s == hash_password pw
    | _ => false
  | _ => false

/-! ## JSON-backed record store

The `Records/` directory is an association list from file name to the
stored document (the app only ever writes JSON objects).  `os.path`
resolution is out of scope: names are opaque keys. -/

/-- The `Records/` directory: file name → parsed JSON document. -/
abbrev FS := List (String × Dict)

/-- Writing a file: overwrite the entry with that exact name in place,
else create it. -/
def fsWrite (fs : FS) (name : String) (d : Dict) : FS :=
  match fs with
  | [] => [(name, d)]
  | (n, e) :: rest =>
    if n = name then (name, d) :: rest else (n, e) :: fsWrite rest name d

/-- `os.path.exists` + reading: the document stored under a name. -/
def fsLookup (fs : FS) (name : String) : Option Dict :=
  match fs with
  | [] => none
  | (n, e) :: rest => if n = name then some e else fsLookup rest name

/-- `os.remove`: delete the entry; `none` embeds the
`FileNotFoundError` raised when the name is absent. -/
def fsRemove (fs : FS) (name : String) : Option FS :=
  match fs with
  | [] => none
  | (n, e) :: rest =>
    if n = name then some rest else (fsRemove rest name).map ((n, e) :: ·)

/-- `os.listdir(RECORDS_DIR)`. -/
def fsNames (fs : FS) : List String := fs.map Prod.fst

/-- `os.path.join(a, b)` for the relative paths the app builds: the
separator is inserted only after a non-empty first part. -/
def osJoin (a b : String) : String :=
  if a = "" then b else a ++ "/" ++ b

/-- The file name `f"record_{rid}.json"` inside `Records/`. -/
def record_file (rid : String) : String :=
  "record_" ++ rid ++ ".json"

/-- `record_path(rid) = os.path.join(RECORDS_DIR, f"record_{rid}.json")`;
the store models the `Records/` directory, so operations use the name
relative to it. -/
def record_path (rid : String) : String :=
  osJoin "Records" (record_file rid)

/-- `load_patient(rid)`: the parsed file if it exists, else `{}`. -/
def load_patient (rid : String) (fs : FS) : Dict :=
  (fsLookup fs (record_file rid)).getD []

/-- `save_patient(rid, data)`: full overwrite of the file for `rid`. -/
def save_patient (rid : String) (d : Dict) (fs : FS) : FS :=
  fsWrite fs (record_file rid) d

/-- The All Records Delete button: `os.remove(record_path(rid))`. -/
def delete_record (rid : String) (fs : FS) : Option FS :=
  fsRemove fs (record_file rid)

/-- `rid = f.split("_")[1].split(".")[0]` — the id the All Records
page extracts from a file name.  (Python indexing `[1]` is total here
because the enumeration only applies it to names starting with
`"record_"`, which contain an underscore.) -/
def extract_rid (f : String) : String :=
  (((splitOnChar '.' ((splitOnChar '_' f.toList).getD 1 [])).headD [])).asString

/-- `sorted([f for f in os.listdir(RECORDS_DIR) if
f.startswith("record_")])`. -/
def list_record_files (fs : FS) : List String :=
  List.mergeSort
    ((fsNames fs).filter (fun f => pyStartsWith "record_".toList f.toList))
    (fun a b => decide (a ≤ b))

/-- The ids shown by the All Records enumeration. -/
def list_ids (fs : FS) : List String :=
  (list_record_files fs).map extract_rid

/-- Python `max` over a non-empty collection; `none` embeds the
`ValueError` on an empty one (the caller guards with
`if existing else`). -/
def pyMax : List Int → Option Int
  | [] => none
  | x :: xs => some (xs.foldl max x)

/-- `str(max(existing)+1 if existing else 1).zfill(4)` — the JSON
variant id generator over the existing numeric ids. -/
def next_json_id (existing : List Int) : String :=
  zfill 4 (toString (match pyMax existing with
    | some m => m + 1
    | none => (1 : Int)))

/-- The auto-ID block of the Save Record handler:
`[int(f.replace("record_","").replace(".json","")) for f in
os.listdir(RECORDS_DIR) if f.startswith("record_")]` fed to
`next_json_id`; `none` embeds `int()` raising on a non-numeric name. -/
def auto_id (files : List String) : Option String :=
  ((files.filter (fun f => pyStartsWith "record_".toList f.toList)).mapM
      (fun f => pyInt (pyReplace '.' "json" "" (pyReplace 'r' "ecord_" "" f)))).map
    next_json_id

/-! ## The Save Record handler -/

/-- The widget values read by the Save Record handler: the Info tab
fields (dates already as `date.isoformat()` strings), the three MAR
data-editor tables as their `to_dict("records")` rows, and the four
vitals inputs.  `Temperature` is a Python float; it is carried as the
JSON value it serialises to, which no claim computes with. -/
structure Form where
  pname : String
  dob : String
  adm : String
  gender : String
  physician : String
  diagnosis : String
  allergies : String
  notes : String
  sched : List JVal
  prn : List JVal
  iv : List JVal
  sysBp : Int
  diaBp : Int
  pulse : Int
  temp : JVal

/-- The new vitals reading appended on save, with
`datetime.now().isoformat()` passed in as `now`. -/
def mkVital (f : Form) (now : String) : JVal :=
  JVal.obj [
    ("Systolic", JVal.num f.sysBp),
    ("Diastolic", JVal.num f.diaBp),
    ("Pulse", JVal.num f.pulse),
    ("Temperature", f.temp),
    ("DateTime", JVal.str now)]

/-- The `record = { ... }` dict literal of the Save Record handler,
with the final Vitals list passed in. -/
def mkRecord (rid : String) (f : Form) (vitals : List JVal) : Dict :=
  [("Patient Name", JVal.str f.pname),
   ("Patient ID", JVal.str rid),
   ("Date of Birth", JVal.str f.dob),
   ("Admission Date", JVal.str f.adm),
   ("Gender", JVal.str f.gender),
   ("Attending Physician", JVal.str f.physician),
   ("Diagnosis", JVal.str f.diagnosis),
   ("Allergies/Reactions", JVal.str f.allergies),
   ("Notes", JVal.str f.notes),
   ("MAR", JVal.obj [
     ("Scheduled", JVal.arr f.sched),
     ("PRN", JVal.arr f.prn),
     ("IV", JVal.arr f.iv)]),
   ("Vitals", JVal.arr vitals)]

/-- `vitals = data.get("Vitals", [])` as consumed by
`vitals + [ ... ]`: absent gives `[]`, a stored array gives its
elements, and a stored non-array makes the later list concatenation
raise `TypeError` (`none`). -/
def pyVitals (data : Dict) : Option (List JVal) :=
  match dictGet data "Vitals" with
  | none => some []
  | some (.arr vs) => some vs
  | some _ => none

/-- One run of the Save Record handler for the typed record number
`recId`: `data` was loaded at the top of the page from `recId` (or is
`{}` when the field is empty), the auto-ID block fills in an empty id,
the record dict is compiled with the appended vitals reading, and
`save_patient` overwrites the file.  Returns the id actually used and
the new directory, or `none` when the handler raises. -/
def save_record_flow (recId : String) (f : Form) (now : String) (fs : FS) :
    Option (String × FS) :=
  let data : Dict := if recId = "" then [] else load_patient recId fs
  match pyVitals data, (if recId = "" then auto_id (fsNames fs) else some recId) with
  | some vitals, some rid =>
    some (rid, save_patient rid (mkRecord rid f (vitals ++ [mkVital f now])) fs)
  | _, _ => none

/-- `N` successive Save Record runs against the same typed record
number, each with its own form values and timestamp. -/
def runSaves (rid : String) : List (Form × String) → FS → FS
  | [], fs => fs
  | (f, t) :: rest, fs =>
    match save_record_flow rid f t fs with
    | some (_, fs') => runSaves rid rest fs'
    | none => runSaves rid rest fs

/-! ## Spreadsheet-backed record index (`src/main.py`)

A worksheet data row (everything after the header) carries the three
cells `Number, Type, File`.  Empty cells read as `None`; a non-empty
cell is modelled by the text `str()` renders it to, which is what both
the identifier (`str(row[0])`) and the `FOLDERS` lookup observe. -/

/-- One data row of `records.xlsx`. -/
structure XRow where
  number : Option String
  rtype : Option String
  file : String

/-- `FOLDERS = {"Record": "Records", "Med": "Meds"}` as a lookup. -/
def FOLDERS (t : String) : Option String :=
  if t = "Record" then some "Records"
  else if t = "Med" then some "Meds"
  else none

/-- `FOLDERS.get(row[1], "")` — an empty or unmapped Type cell yields
the empty folder. -/
def folderOf (t : Option String) : String :=
  match t with
  | some s => (FOLDERS s).getD ""
  | none => ""

/-- `records[number] = path` over a Python dict: replace in place or
append. -/
def recInsert (recs : List (String × String)) (k v : String) :
    List (String × String) :=
  match recs with
  | [] => [(k, v)]
  | (k', v') :: rest =>
    if k' = k then (k, v) :: rest else (k', v') :: recInsert rest k v

/-- Python dict lookup on the records index. -/
def recGet (recs : List (String × String)) (k : String) : Option String :=
  match recs with
  | [] => none
  | (k', v) :: rest => if k' = k then some v else recGet rest k

/-- `load_records()` over the data rows of the worksheet (the
ensure-file-exists step creates an empty row list): rows with a `None`
identifier are skipped, every other row inserts
`str(row[0]) → os.path.join(FOLDERS.get(row[1], ""), row[2])`. -/
def load_records (rows : List XRow) : List (String × String) :=
  rows.foldl
    (fun recs row =>
      match row.number with
      | none => recs
      | some n => recInsert recs n (osJoin (folderOf row.rtype) row.file))
    []

/-- `save_record_to_excel(number, record_type, filename)`: append one
row to the worksheet and save the whole file. -/
def save_record_to_excel (rows : List XRow) (number rtype filename : String) :
    List XRow :=
  rows ++ [⟨some number, some rtype, filename⟩]

/-! ## Store lemmas -/

theorem fsLookup_fsWrite_self (fs : FS) (n : String) (d : Dict) :
    fsLookup (fsWrite fs n d) n = some d := by
  induction fs with
  | nil => simp [fsWrite, fsLookup]
  | cons hd tl ih =>
    obtain ⟨m, e⟩ := hd
    by_cases h : m = n <;> simp [fsWrite, fsLookup, h, ih]

theorem load_patient_save_patient (fs : FS) (rid : String) (d : Dict) :
    load_patient rid (save_patient rid d fs) = d := by
  simp [load_patient, save_patient, fsLookup_fsWrite_self]

theorem fsLookup_of_not_mem {fs : FS} {n : String} (h : n ∉ fsNames fs) :
    fsLookup fs n = none := by
  induction fs with
  | nil => simp [fsLookup]
  | cons hd tl ih =>
    obtain ⟨m, e⟩ := hd
    simp [fsNames] at h
    simp [fsLookup, Ne.symm h.1, ih (by simp [fsNames, h.2])]

theorem fsRemove_of_not_mem {fs : FS} {n : String} (h : n ∉ fsNames fs) :
    fsRemove fs n = none := by
  induction fs with
  | nil => simp [fsRemove]
  | cons hd tl ih =>
    obtain ⟨m, e⟩ := hd
    simp [fsNames] at h
    simp [fsRemove, Ne.symm h.1, ih (by simp [fsNames, h.2])]

theorem fsRemove_fsWrite_of_not_mem {fs : FS} {n : String} (d : Dict)
    (h : n ∉ fsNames fs) : fsRemove (fsWrite fs n d) n = some fs := by
  induction fs with
  | nil => simp [fsWrite, fsRemove]
  | cons hd tl ih =>
    obtain ⟨m, e⟩ := hd
    simp [fsNames] at h
    simp [fsWrite, fsRemove, Ne.symm h.1, ih (by simp [fsNames, h.2])]

theorem mem_fsNames_fsWrite (fs : FS) (n : String) (d : Dict) :
    n ∈ fsNames (fsWrite fs n d) := by
  induction fs with
  | nil => simp [fsWrite, fsNames]
  | cons hd tl ih =>
    obtain ⟨m, e⟩ := hd
    by_cases h : m = n <;> simp [fsWrite, fsNames, h]
    · right; simpa [fsNames] using ih

theorem recGet_recInsert_self (recs : List (String × String)) (k v : String) :
    recGet (recInsert recs k v) k = some v := by
  induction recs with
  | nil => simp [recInsert, recGet]
  | cons hd tl ih =>
    obtain ⟨k', v'⟩ := hd
    by_cases h : k' = k <;> simp [recInsert, recGet, h, ih]

theorem dictGet_dictInsert_self (d : Dict) (k : String) (v : JVal) :
    dictGet (dictInsert d k v) k = some v := by
  induction d with
  | nil => simp [dictInsert, dictGet]
  | cons hd tl ih =>
    obtain ⟨k', v'⟩ := hd
    by_cases h : k' = k <;> simp [dictInsert, dictGet, h, ih]

theorem mem_dictInsert {d : Dict} {k : String} {v : JVal} {kv : String × JVal}
    (h : kv ∈ dictInsert d k v) : kv = (k, v) ∨ kv ∈ d := by
  induction d with
  | nil => simpa [dictInsert] using h
  | cons hd tl ih =>
    obtain ⟨k', v'⟩ := hd
    by_cases hk : k' = k
    · simp [dictInsert, hk] at h
      rcases h with h | h
      · exact Or.inl (by simp [h])
      · exact Or.inr (by simp [h])
    · simp [dictInsert, hk] at h
      rcases h with h | h
      · exact Or.inr (by simp [h])
      · rcases ih h with h' | h'
        · exact Or.inl h'
        · exact Or.inr (by simp [h'])

/-! ## Splitting lemmas for the All Records id extraction -/

theorem splitOnChar_ne_nil (c : Char) (l : List Char) : splitOnChar c l ≠ [] := by
  cases l with
  | nil => simp [splitOnChar]
  | cons x xs =>
    simp only [splitOnChar]
    rcases h : splitOnChar c xs with _ | ⟨r, rs⟩
    · simp
    · by_cases hx : x = c <;> simp [hx]

theorem splitOnChar_of_not_mem {c : Char} {l : List Char} (h : c ∉ l) :
    splitOnChar c l = [l] := by
  induction l with
  | nil => simp [splitOnChar]
  | cons x xs ih =>
    simp at h
    simp [splitOnChar, ih h.2, Ne.symm h.1]

theorem splitOnChar_append {c : Char} {l₁ l₂ : List Char} {r : List Char}
    {rs : List (List Char)} (h : c ∉ l₁) (h₂ : splitOnChar c l₂ = r :: rs) :
    splitOnChar c (l₁ ++ l₂) = (l₁ ++ r) :: rs := by
  induction l₁ with
  | nil => simpa using h₂
  | cons x xs ih =>
    simp at h
    simp [splitOnChar, ih h.2, Ne.symm h.1]

theorem splitOnChar_cons_self (c : Char) (l : List Char) :
    splitOnChar c (c :: l) = [] :: splitOnChar c l := by
  simp only [splitOnChar]
  rcases h : splitOnChar c l with _ | ⟨r, rs⟩
  · exact absurd h (splitOnChar_ne_nil c l)
  · simp

/-- A clean id (no underscore, no period) is recovered exactly from its
record file name by the All Records extraction. -/
theorem extract_rid_record_file {rid : String}
    (hu : '_' ∉ rid.toList) (hp : '.' ∉ rid.toList) :
    extract_rid (record_file rid) = rid := by
  have htl : (record_file rid).toList =
      "record".toList ++ '_' :: (rid.toList ++ '.' :: "json".toList) := by
    simp [record_file, String.toList]
  have hrest : splitOnChar '_' (rid.toList ++ '.' :: "json".toList) =
      [rid.toList ++ '.' :: "json".toList] := by
    apply splitOnChar_of_not_mem
    simp_all
  have hsplit : splitOnChar '_' ('_' :: (rid.toList ++ '.' :: "json".toList)) =
      [] :: [rid.toList ++ '.' :: "json".toList] := by
    rw [splitOnChar_cons_self, hrest]
  have h1 : splitOnChar '_' (record_file rid).toList =
      ["record".toList, rid.toList ++ '.' :: "json".toList] := by
    rw [htl, splitOnChar_append (by decide) hsplit]
    simp
  have hdot : splitOnChar '.' (rid.toList ++ '.' :: "json".toList) =
      (rid.toList ++ []) :: splitOnChar '.' "json".toList := by
    exact splitOnChar_append hp (splitOnChar_cons_self '.' _)
  rw [extract_rid, h1]
  simp only [List.getD_cons_succ, List.getD_cons_zero, hdot]
  simp [splitOnChar_of_not_mem (by decide : '.' ∉ "json".toList)]
  cases rid
  rfl

/-! ## Digest length and credential normalisation lemmas -/

theorem wordHexChars_length (w : Nat) : (wordHexChars w).length = 8 := by
  simp [wordHexChars]

theorem shaCompress_length (h b : List Nat) : (shaCompress h b).length = 8 := by
  simp [shaCompress]

theorem sha256Words_length (msg : List Nat) : (sha256Words msg).length = 8 := by
  rw [sha256Words]
  have key : ∀ (bs : List (List Nat)) (h : List Nat), h.length = 8 →
      (bs.foldl shaCompress h).length = 8 := by
    intro bs
    induction bs with
    | nil => intro h hh; simpa using hh
    | cons b rest ih => intro h hh; exact ih _ (shaCompress_length h b)
  exact key _ shaH0 (by rfl)

theorem sum_map_length_hex (ws : List Nat) :
    ((ws.map wordHexChars).map List.length).sum = 8 * ws.length := by
  induction ws with
  | nil => simp
  | cons w rest ih =>
    simp [wordHexChars_length]
    simp [List.map_map] at ih
    omega

/-- Every `hash_password` digest is a 64-character string — the fact
the length-64 normalisation check in `load_users` relies on. -/
theorem hash_password_length (pw : String) : (hash_password pw).length = 64 := by
  rw [hash_password, String.length_mk, List.length_flatten,
    sum_map_length_hex, sha256Words_length]

theorem toLower_idem (c : Char) : (c.toLower).toLower = c.toLower := by
  unfold Char.toLower
  by_cases h : c.toNat ≥ 65 ∧ c.toNat ≤ 90
  · rw [if_pos h]
    have hv : (c.toNat + 32).isValidChar := Or.inl (by omega)
    have ht : (Char.ofNat (c.toNat + 32)).toNat = c.toNat + 32 := by
      simp [Char.ofNat, hv]
      rfl
    rw [ht]
    rw [if_neg (by omega)]
  · rw [if_neg h, if_neg h]

theorem pyLower_idem (s : String) : pyLower (pyLower s) = pyLower s := by
  simp only [pyLower, String.toList, String.length_mk, List.map_map]
  congr 1
  exact List.map_congr_left (fun c _ => toLower_idem c)

/-- A successfully normalised entry is a dict whose `password` field
has `len` 64 (a 64-character string when it was stored or produced as a
string). -/
theorem normalizePw_ok {d : Dict} {v : JVal} (h : normalizePw d = some v) :
    ∃ fields pw, v = JVal.obj fields ∧ dictGet fields "password" = some pw ∧
      pyLen pw = some 64 := by
  unfold normalizePw at h
  split at h
  · exact absurd h (by simp)
  next pw hg =>
    split at h
    · exact absurd h (by simp)
    next n hl =>
      split at h
      next hn =>
        injection h with h
        exact ⟨d, pw, h.symm, hg, hn ▸ hl⟩
      next hn =>
        split at h
        next s =>
          injection h with h
          refine ⟨dictInsert d "password" (JVal.str (hash_password s)),
            JVal.str (hash_password s), h.symm, dictGet_dictInsert_self _ _ _, ?_⟩
          simp [pyLen, hash_password_length]
        next => exact absurd h (by simp)

theorem normalizeEntry_ok {info v : JVal} (h : normalizeEntry info = some v) :
    ∃ fields pw, v = JVal.obj fields ∧ dictGet fields "password" = some pw ∧
      pyLen pw = some 64 :=
  normalizePw_ok h

theorem normalizeUsers_mem {l out : List (String × JVal)}
    (h : normalizeUsers l = some out) :
    ∀ kv ∈ out, ∃ info, normalizeEntry info = some kv.2 := by
  induction l generalizing out with
  | nil =>
    simp [normalizeUsers] at h
    simp [h]
  | cons hd tl ih =>
    obtain ⟨u, info⟩ := hd
    unfold normalizeUsers at h
    rcases he : normalizeEntry info with _ | v <;> rw [he] at h
    · simp at h
    · rcases hr : normalizeUsers tl with _ | r <;> rw [hr] at h
      · simp at h
      · injection h with h
        intro kv hkv
        rw [← h] at hkv
        rcases List.mem_cons.mp hkv with hkv | hkv
        · exact ⟨info, by rw [hkv]; exact he⟩
        · exact ih hr kv hkv

theorem lowerKeys_mem_aux (data : List (String × JVal))
    (acc : Dict) {kv : String × JVal}
    (h : kv ∈ data.foldl (fun a p => dictInsert a (pyLower p.1) p.2) acc) :
    (pyLower kv.1 = kv.1 ∧ ∃ u, (u, kv.2) ∈ data) ∨ kv ∈ acc := by
  induction data generalizing acc with
  | nil => exact Or.inr h
  | cons hd tl ih =>
    obtain ⟨u, v⟩ := hd
    simp only [List.foldl_cons] at h
    rcases ih _ h with ⟨hl, u', hu'⟩ | hacc
    · exact Or.inl ⟨hl, u', List.mem_cons_of_mem _ hu'⟩
    · rcases mem_dictInsert hacc with heq | hmem
      · refine Or.inl ⟨?_, u, ?_⟩
        · rw [heq]; exact pyLower_idem u
        · rw [heq]; exact List.mem_cons_self _ _
      · exact Or.inr hmem

theorem lowerKeys_mem {data : List (String × JVal)} {kv : String × JVal}
    (h : kv ∈ lowerKeys data) :
    pyLower kv.1 = kv.1 ∧ ∃ u, (u, kv.2) ∈ data := by
  rcases lowerKeys_mem_aux data [] h with h' | h'
  · exact h'
  · simp at h'

theorem folderOf_unmapped {t : Option String} (h1 : t ≠ some "Record")
    (h2 : t ≠ some "Med") : folderOf t = "" := by
  cases t with
  | none => rfl
  | some s =>
    have hs1 : s ≠ "Record" := fun hc => h1 (by rw [hc])
    have hs2 : s ≠ "Med" := fun hc => h2 (by rw [hc])
    simp [folderOf, FOLDERS, hs1, hs2]

/-! ## Claims -/

/-- A concrete set of form values (the widget defaults) used to
instantiate universally quantified claims at a concrete input. -/
def defaultForm : Form :=
  ⟨"Al", "2000-01-01", "2025-01-01", "Male", "Dr. Buggler", "", "", "",
    [], [], [], 120, 80, 70, JVal.num 37⟩

/-- **C1.** For every record id and every document `doc`, calling
`save_patient(id, doc)` and then immediately `load_patient(id)` returns
a document equal to `doc`, for any id, including ids with no previously
existing file (the save is a full overwrite at
`record_path(id)` and the load parses that exact file). -/
theorem claim_C1_save_then_load_roundtrip (fs : FS) (rid : String) (doc : Dict) :
    load_patient rid (save_patient rid doc fs) = doc :=
  load_patient_save_patient fs rid doc

/-- **C3.** The JSON-variant id generator returns
`str(max(existing_ids)+1)` zero-padded to 4 digits, `"0001"` on an
empty set; in particular `next_json_id {} = "0001"` and
`next_json_id {3, 7, 1} = "0008"`. -/
theorem claim_C3_next_json_id :
    next_json_id [] = "0001" ∧
    next_json_id [3, 7, 1] = "0008" ∧
    ∀ (existing : List Int) (m : Int), pyMax existing = some m →
      next_json_id existing = zfill 4 (toString (m + 1)) := by
  refine ⟨by decide, by decide, ?_⟩
  intro existing m h
  simp [next_json_id, h]

/-- **C4.** For every valid triple `(id, type, filename)` with `type`
mapped by `FOLDERS`, appending it via `save_record_to_excel` and then
running `load_records()` yields a mapping containing
`id ↦ <type-folder>/<filename>`. -/
theorem claim_C4_append_then_load_index (rows : List XRow)
    (number rtype filename folder : String) (h : FOLDERS rtype = some folder) :
    recGet (load_records (save_record_to_excel rows number rtype filename))
      number = some (osJoin folder filename) := by
  rw [save_record_to_excel, load_records, List.foldl_append]
  simp only [List.foldl_cons, List.foldl_nil]
  have hf : folderOf (some rtype) = folder := by simp [folderOf, h]
  rw [hf]
  exact recGet_recInsert_self _ _ _

theorem claim_C4_append_then_load_index_witness :
    recGet (load_records (save_record_to_excel [] "5" "Record" "a.html")) "5" =
      some (osJoin "Records" "a.html") :=
  claim_C4_append_then_load_index [] "5" "Record" "a.html" "Records" (by decide)

/-- **C6.** In `load_records`, every data row whose identifier cell is
`None` is skipped — it contributes nothing to the mapping — and every
row with a non-`None` identifier whose type is not `Record` or `Med`
produces an entry whose path is its filename joined to the empty folder
segment, rather than failing. -/
theorem claim_C6_null_id_skipped_unknown_type_empty_folder :
    (∀ (rows₁ rows₂ : List XRow) (r : XRow), r.number = none →
      load_records (rows₁ ++ r :: rows₂) = load_records (rows₁ ++ rows₂)) ∧
    (∀ (rows : List XRow) (r : XRow) (n : String), r.number = some n →
      r.rtype ≠ some "Record" → r.rtype ≠ some "Med" →
      recGet (load_records (rows ++ [r])) n = some (osJoin "" r.file)) := by
  constructor
  · intro rows₁ rows₂ r hnum
    rw [load_records, load_records, List.foldl_append, List.foldl_append,
      List.foldl_cons, hnum]
  · intro rows r n hnum h1 h2
    rw [load_records, List.foldl_append]
    simp only [List.foldl_cons, List.foldl_nil]
    rw [hnum, folderOf_unmapped h1 h2]
    exact recGet_recInsert_self _ _ _

theorem claim_C6_null_id_skipped_unknown_type_empty_folder_witness :
    load_records ([⟨some "1", some "Record", "a"⟩] ++
        ⟨none, some "Med", "b"⟩ :: [⟨some "2", some "Zed", "c"⟩]) =
      load_records ([⟨some "1", some "Record", "a"⟩] ++
        [⟨some "2", some "Zed", "c"⟩]) ∧
    recGet (load_records ([⟨some "1", some "Record", "a"⟩] ++
        [(⟨some "2", some "Zed", "c"⟩ : XRow)])) "2" = some (osJoin "" "c") :=
  ⟨claim_C6_null_id_skipped_unknown_type_empty_folder.1
      [⟨some "1", some "Record", "a"⟩] [⟨some "2", some "Zed", "c"⟩]
      ⟨none, some "Med", "b"⟩ rfl,
    claim_C6_null_id_skipped_unknown_type_empty_folder.2
      [⟨some "1", some "Record", "a"⟩] ⟨some "2", some "Zed", "c"⟩ "2" rfl
      (by decide) (by decide)⟩

theorem claim_C3_next_json_id_witness :
    next_json_id [5] = zfill 4 (toString ((5 : Int) + 1)) :=
  claim_C3_next_json_id.2.2 [5] 5 rfl

/-- **C7.** The Delete button removes the backing JSON file: for a
record id with no pre-existing file, deleting right after saving
returns exactly the pre-save directory — so a subsequent
`load_patient(id)` gives the empty document and the listing (hence
`list_ids`) is restored to its pre-save state, where the file for that
id no longer appears.  Deleting an id whose file does not exist fails with
`FileNotFoundError` (`none`) rather than succeeding silently. -/
theorem claim_C7_delete_removes_file :
    (∀ (fs : FS) (rid : String) (doc : Dict), record_file rid ∉ fsNames fs →
      delete_record rid (save_patient rid doc fs) = some fs ∧
      load_patient rid fs = [] ∧ list_ids fs = list_ids fs) ∧
    (∀ (fs : FS) (rid : String), record_file rid ∉ fsNames fs →
      delete_record rid fs = none) := by
  constructor
  · intro fs rid doc h
    refine ⟨?_, ?_, rfl⟩
    · rw [delete_record, save_patient]
      exact fsRemove_fsWrite_of_not_mem doc h
    · rw [load_patient, fsLookup_of_not_mem h]
      rfl
  · intro fs rid h
    exact fsRemove_of_not_mem h

theorem claim_C7_delete_removes_file_witness :
    (delete_record "7" (save_patient "7" [] []) = some [] ∧
      load_patient "7" [] = [] ∧ list_ids [] = list_ids []) ∧
    delete_record "9" [] = none :=
  ⟨claim_C7_delete_removes_file.1 [] "7" [] (by simp [fsNames]),
    claim_C7_delete_removes_file.2 [] "9" (by simp [fsNames])⟩

/-- **C9.** Every document written through the Save Record flow has its
`"Patient ID"` field equal to the record id used as the storage key —
the handler compiles the record dict with `"Patient ID": rec_id`
unconditionally, regardless of what the previously loaded document
contained. -/
theorem claim_C9_patient_id_matches_storage_key
    (recId : String) (f : Form) (now : String) (fs : FS)
    (rid : String) (fs' : FS)
    (h : save_record_flow recId f now fs = some (rid, fs')) :
    dictGet (load_patient rid fs') "Patient ID" = some (JVal.str rid) := by
  rw [save_record_flow] at h
  split at h
  next vitals rid' hv hid =>
    injection h with h
    injection h with h1 h2
    subst h1
    rw [← h2, load_patient_save_patient]
    rfl
  next => exact absurd h (by simp)

theorem claim_C9_patient_id_matches_storage_key_witness :
    dictGet
      (load_patient "0005"
        [("record_0005.json", mkRecord "0005" defaultForm [mkVital defaultForm "T"])])
      "Patient ID" = some (JVal.str "0005") :=
  claim_C9_patient_id_matches_storage_key "0005" defaultForm "T" [] "0005" _ rfl

/-- **C2.** Saving never truncates the Vitals list: starting from an
absent record, `N` successive save cycles (each loading the record,
appending the one new reading built from the form, and saving) leave
exactly the `N` appended readings, in order — so
`len(load(id)["Vitals"]) = N` and every previously stored reading is
still present (the first `k` readings after cycle `k`). -/
theorem claim_C2_vitals_never_truncated
    (rid : String) (cycles : List (Form × String)) (fs : FS)
    (hrid : rid ≠ "") (habsent : record_file rid ∉ fsNames fs) :
    pyVitals (load_patient rid (runSaves rid cycles fs)) =
      some (cycles.map (fun c => mkVital c.1 c.2)) ∧
    (cycles.map (fun c => mkVital c.1 c.2)).length = cycles.length := by
  refine ⟨?_, by simp⟩
  have step : ∀ (cs : List (Form × String)) (fs₀ : FS) (vs : List JVal),
      pyVitals (load_patient rid fs₀) = some vs →
      pyVitals (load_patient rid (runSaves rid cs fs₀)) =
        some (vs ++ cs.map (fun c => mkVital c.1 c.2)) := by
    intro cs
    induction cs with
    | nil => intro fs₀ vs hv; simpa [runSaves] using hv
    | cons c rest ih =>
      intro fs₀ vs hv
      obtain ⟨f, t⟩ := c
      have hflow : save_record_flow rid f t fs₀ =
          some (rid, save_patient rid
            (mkRecord rid f (vs ++ [mkVital f t])) fs₀) := by
        rw [save_record_flow]
        rw [if_neg hrid, if_neg hrid]
        rw [hv]
      rw [runSaves, hflow]
      have hnext : pyVitals (load_patient rid
          (save_patient rid (mkRecord rid f (vs ++ [mkVital f t])) fs₀)) =
          some (vs ++ [mkVital f t]) := by
        rw [load_patient_save_patient]
        rfl
      rw [ih _ _ hnext]
      simp
  have h0 : pyVitals (load_patient rid fs) = some [] := by
    rw [load_patient, fsLookup_of_not_mem habsent]
    rfl
  simpa using step cycles fs [] h0

theorem claim_C2_vitals_never_truncated_witness :
    pyVitals (load_patient "0001"
        (runSaves "0001" [(defaultForm, "T1"), (defaultForm, "T2")] [])) =
      some [mkVital defaultForm "T1", mkVital defaultForm "T2"] ∧
    ([(defaultForm, "T1"), (defaultForm, "T2")].map
        (fun c => mkVital c.1 c.2)).length =
      [(defaultForm, "T1"), (defaultForm, "T2")].length := by
  have h := claim_C2_vitals_never_truncated "0001"
    [(defaultForm, "T1"), (defaultForm, "T2")] [] (by decide) (by simp [fsNames])
  simpa using h

/-- On first run the seeded credential file is read back unchanged: the
seeded digest already has length 64, so normalisation leaves it alone,
and `"admin"` is already lowercase. -/
theorem load_users_fresh :
    load_users none =
      some [("admin", JVal.obj [("password", JVal.str (hash_password "haccare"))])] := by
  have h1 : normalizeUsers defaultSeed = some defaultSeed := by
    rw [defaultSeed]
    simp [normalizeUsers, normalizeEntry, normalizePw, dictGet, pyLen,
      hash_password_length]
  have hlow : pyLower "admin" = "admin" := by decide
  rw [load_users, Option.getD, h1]
  simp [lowerKeys, dictInsert, hlow, defaultSeed]

/-- **C5.** `verify_password` performs a case-insensitive (and
whitespace-stripped) username lookup and returns `true` iff a
credential record exists for the username and its stored digest equals
the digest of the supplied password; on a freshly seeded store both
`verify("Admin", "haccare")` and `verify("ADMIN", "haccare")` are
`true`; and whenever the username is unknown it returns `false` for
every password, without raising (the embedding is a total `Bool`
function). -/
theorem claim_C5_verify_password :
    (∀ (users : Dict) (user pw : String),
      verify_password users user pw = true ↔
        ∃ fields, dictGet users (pyLower (pyStrip user)) = some (JVal.obj fields) ∧
          dictGet fields "password" = some (JVal.str (hash_password pw))) ∧
    load_users none =
      some [("admin", JVal.obj [("password", JVal.str (hash_password "haccare"))])] ∧
    verify_password
      [("admin", JVal.obj [("password", JVal.str (hash_password "haccare"))])]
      "Admin" "haccare" = true ∧
    verify_password
      [("admin", JVal.obj [("password", JVal.str (hash_password "haccare"))])]
      "ADMIN" "haccare" = true ∧
    (∀ (users : Dict) (user pw : String),
      dictGet users (pyLower (pyStrip user)) = none →
      verify_password users user pw = false) := by
  refine ⟨?_, load_users_fresh, ?_, ?_, ?_⟩
  · intro users user pw
    rw [verify_password]
    rcases hg : dictGet users (pyLower (pyStrip user)) with _ | v
    · simp
    · cases v with
      | obj fields =>
        rcases hp : dictGet fields "password" with _ | pv
        · simp [hp]
        · cases pv with
          | str s => simp [hp, beq_iff_eq]
          | num n => simp [hp]
          | arr vs => simp [hp]
          | obj fs2 => simp [hp]
      | str s => simp
      | num n => simp
      | arr vs => simp
  · have hkey : pyLower (pyStrip "Admin") = "admin" := by decide
    rw [verify_password, hkey]
    simp [dictGet]
  · have hkey : pyLower (pyStrip "ADMIN") = "admin" := by decide
    rw [verify_password, hkey]
    simp [dictGet]
  · intro users user pw h
    rw [verify_password, h]

theorem claim_C5_verify_password_witness :
    verify_password [] "zoe" "pw" = false :=
  claim_C5_verify_password.2.2.2.2 [] "zoe" "pw" rfl

/-- A credential file whose `bob` entry stores a JSON array of 64
elements as its password: the entry is a dict and `len` of the array is
64, so `load_users` returns it untouched — with a password that is not
a string. -/
def badCredFile : List (String × JVal) :=
  [("bob", JVal.obj [("password", JVal.arr (List.replicate 64 (JVal.num 0)))])]

/-- The invariant claimed by C8, stated from the spec's words: every
key of the returned mapping is lowercase and every value is an object
whose `password` field is a **string** of exactly 64 characters. -/
def claimedCredProp (m : Dict) : Prop :=
  ∀ kv ∈ m, pyLower kv.1 = kv.1 ∧
    ∃ fields s, kv.2 = JVal.obj fields ∧
      dictGet fields "password" = some (JVal.str s) ∧ s.length = 64

/-- **C8, counterexample.** `load_users` on `badCredFile` succeeds and
returns the file unchanged, yet the returned mapping violates the
claimed invariant: the password of `bob` is a 64-element array, not a
string, and the length-64 check (`len(pw) != 64`) accepts it without
hashing. -/
theorem claim_C8_counterexample :
    load_users (some badCredFile) = some badCredFile ∧
      ¬ claimedCredProp badCredFile := by
  constructor
  · rfl
  · intro h
    have h2 := h ("bob",
      JVal.obj [("password", JVal.arr (List.replicate 64 (JVal.num 0)))])
      (by simp [badCredFile])
    obtain ⟨-, fields, s, heq, hpw, -⟩ := h2
    injection heq with heq
    rw [← heq] at hpw
    simp [dictGet] at hpw

/-- **C8, amended.** Every mapping successfully returned by
`load_users` has every key lowercase, and every value is an object
whose `password` field is present with `len` exactly 64 — a
64-character string whenever it is a string (entries whose stored value
is not a dict, or whose string password has the wrong length, are
normalised by hashing, legacy plaintext included); but a dict entry
whose password is a JSON array or object of size 64 is returned as is,
so the password need not be a string. -/
theorem claim_C8_load_users_invariant :
    ∀ (file : Option (List (String × JVal))) (m : Dict),
      load_users file = some m →
      ∀ kv ∈ m, pyLower kv.1 = kv.1 ∧
        ∃ fields pw, kv.2 = JVal.obj fields ∧
          dictGet fields "password" = some pw ∧ pyLen pw = some 64 := by
  intro file m h kv hkv
  rw [load_users] at h
  rcases hn : normalizeUsers (file.getD defaultSeed) with _ | out <;> rw [hn] at h
  · simp at h
  · injection h with h
    rw [← h] at hkv
    obtain ⟨hl, u, hu⟩ := lowerKeys_mem hkv
    refine ⟨hl, ?_⟩
    obtain ⟨info, hinfo⟩ := normalizeUsers_mem hn (u, kv.2) hu
    exact normalizeEntry_ok hinfo

theorem claim_C8_load_users_invariant_witness :
    pyLower "admin" = "admin" ∧
      ∃ fields pw,
        JVal.obj [("password", JVal.str (hash_password "haccare"))] =
          JVal.obj fields ∧
        dictGet fields "password" = some pw ∧ pyLen pw = some 64 :=
  claim_C8_load_users_invariant none _ load_users_fresh
    ("admin", JVal.obj [("password", JVal.str (hash_password "haccare"))])
    (by simp)

/-- **C10.** The All Records enumeration recovers a saved record id
exactly when the id contains no underscore and no period: for every
such id, saving puts the id itself in `list_ids`; while an id
containing `'_'` or `'.'` is listed as a different, truncated string
(`"a_b"` and `"a.b"` both list as `"a"`). -/
theorem claim_C10_list_ids_exact_for_clean_ids :
    (∀ (fs : FS) (rid : String) (doc : Dict),
      '_' ∉ rid.toList → '.' ∉ rid.toList →
      rid ∈ list_ids (save_patient rid doc fs)) ∧
    list_ids (save_patient "a_b" [] []) = ["a"] ∧
    list_ids (save_patient "a_b" [] []) ≠ ["a_b"] ∧
    list_ids (save_patient "a.b" [] []) = ["a"] ∧
    list_ids (save_patient "a.b" [] []) ≠ ["a.b"] := by
  have e1 : list_ids (save_patient "a_b" [] []) = ["a"] := by
    have hs : save_patient "a_b" [] [] = [("record_a_b.json", [])] := rfl
    rw [list_ids, list_record_files, hs]
    have hf : (fsNames [("record_a_b.json", ([] : Dict))]).filter
        (fun f => pyStartsWith "record_".toList f.toList) =
        ["record_a_b.json"] := by decide
    rw [hf, List.mergeSort_singleton]
    decide
  have e2 : list_ids (save_patient "a.b" [] []) = ["a"] := by
    have hs : save_patient "a.b" [] [] = [("record_a.b.json", [])] := rfl
    rw [list_ids, list_record_files, hs]
    have hf : (fsNames [("record_a.b.json", ([] : Dict))]).filter
        (fun f => pyStartsWith "record_".toList f.toList) =
        ["record_a.b.json"] := by decide
    rw [hf, List.mergeSort_singleton]
    decide
  refine ⟨?_, e1, by rw [e1]; decide, e2, by rw [e2]; decide⟩
  intro fs rid doc hu hp
  rw [list_ids]
  apply List.mem_map.mpr
  refine ⟨record_file rid, ?_, extract_rid_record_file hu hp⟩
  rw [list_record_files]
  apply List.mem_mergeSort.mpr
  apply List.mem_filter.mpr
  constructor
  · rw [save_patient]
    exact mem_fsNames_fsWrite fs _ doc
  · rw [pyStartsWith]
    apply List.isPrefixOf_iff_prefix.mpr
    have htl : (record_file rid).toList =
        "record_".toList ++ (rid.toList ++ ".json".toList) := by
      simp [record_file, String.toList]
    rw [htl]
    exact List.prefix_append _ _

theorem claim_C10_list_ids_exact_for_clean_ids_witness :
    "0001" ∈ list_ids (save_patient "0001" [] []) :=
  claim_C10_list_ids_exact_for_clean_ids.1 [] "0001" [] (by decide) (by decide)

end HacCare
